import Mathlib

set_option maxHeartbeats 1000000
set_option maxRecDepth 8000

/-!
Verification development for the infectious-disease simulation
(`InfectiousDiseaseModeling.cpp`).

The engine code (`simulate_parallel`, `simulate_serial`, `reset_input`) is
embedded directly from the C++ source.  The `Individual` state machine and the
`GraphHandler` neighborhood builder live in headers that are not part of the
available sources, so those primitives are modelled from the specification
(spec §3, §4.1, §4.2) and are marked as such below.

Randomness is embedded as explicit tapes: `mt e i` is the movement draw for
individual `i` in epoch `e`, and `it e s t` is the success draw for an
infection attempt of source individual `s` on target individual `t` in epoch
`e`.  Indexing draws by (epoch, source, target) makes the tape itself
independent of iteration order, so a "random seed" determines the same
per-attempt draws in every execution mode.

The OpenMP `parallel for` regions of `simulate_parallel` carry no `flush`,
`atomic` or `critical` construct, so a conforming execution may keep each
thread's writes invisible to the other threads until the closing barrier.  The
embedding adopts that schedule: during the infection phase a worker reads the
phase-start value of every slot outside its own chunk, and its own (live)
writes inside its chunk.  Movement and advance phases read only the slot being
written, so for them the schedule is irrelevant.
-/

namespace IDM

/-- Infection states of an individual.  Modelled from the spec (§3):
`Individual.h` is not among the available sources. -/
inductive InfState
  | Susceptible
  | Infected
  | Recovered
deriving DecidableEq, Repr

/-- Modelled from the spec (§3): per-agent state of `Individual`
(`Individual.h` is not among the available sources): a location, an infection
state, the infected-duration counter, and the cumulative `everHit` flag. -/
structure Individual where
  location : Nat
  state : InfState
  infectedDuration : Nat
  everHit : Bool
deriving DecidableEq, Repr

/-- Value produced by an out-of-range vector read in the embedding.  All
in-range reads of the embedded loops are proved/used at indices below the
array length, so this default never influences an in-range result. -/
def d0 : Individual := ⟨0, InfState.Susceptible, 0, false⟩

/-- Modelled from the spec: `Individual::is_infected` — the binary check used
throughout the engine. -/
def Individual.is_infected (ind : Individual) : Bool :=
  match ind.state with
  | InfState.Infected => true
  | _ => false

/-- Modelled from the spec (glossary: a *hit* individual is one that has ever
been infected): `Individual::is_hit` returns the cumulative flag. -/
def Individual.is_hit (ind : Individual) : Bool := ind.everHit

/-- Modelled from the spec (§3 lifecycle): `Individual::infect` force-infects a
seed case — state becomes `Infected`, the duration counter restarts, and the
cumulative hit flag is set. -/
def Individual.infect (ind : Individual) : Individual :=
  ⟨ind.location, InfState.Infected, 0, true⟩

/-- Modelled from the spec (§4.2): `Individual::try_infect` is a no-op unless
the individual is `Susceptible`; on a successful draw it transitions to
`Infected`, resets `infectedDuration`, and sets `everHit`. -/
def Individual.try_infect (ind : Individual) (draw : Bool) : Individual :=
  match ind.state, draw with
  | InfState.Susceptible, true => ⟨ind.location, InfState.Infected, 0, true⟩
  | _, _ => ind

/-- Modelled from the spec (§4.2): `Individual::move` replaces the location by
a candidate drawn from the candidate set (`r` is the random draw); the
candidate set passed by the engine always contains the current location. -/
def Individual.move (ind : Individual) (cands : List Nat) (r : Nat) : Individual :=
  match cands with
  | [] => ind
  | c :: cs => { ind with location := (c :: cs).getD (r % (c :: cs).length) c }

/-- Modelled from the spec (§4.2): `Individual::advance_epoch` is a no-op
unless `Infected`; it increments `infectedDuration` and, once the duration
exceeds the disease-duration threshold `th`, transitions to `Recovered`. -/
def Individual.advance_epoch (ind : Individual) (th : Nat) : Individual :=
  match ind.state with
  | InfState.Infected =>
      if th < ind.infectedDuration + 1 then
        { ind with state := InfState.Recovered, infectedDuration := ind.infectedDuration + 1 }
      else
        { ind with infectedDuration := ind.infectedDuration + 1 }
  | _ => ind

/-- The location graph: a number of vertices `0, …, vertexCount - 1` and a list
of undirected edges (`Settings.h`: a boost adjacency list). -/
structure LocationUndirectedGraph where
  vertexCount : Nat
  edges : List (Nat × Nat)

/-- Modelled from the spec (§4.1, §3):
`GraphHandler::get_node_neighborhood_lookup_map` maps every location to the
set containing itself plus its adjacent locations
(`GraphHandler.h` is not among the available sources). -/
def neighborhood_of (g : LocationUndirectedGraph) (v : Nat) : List Nat :=
  v :: g.edges.filterMap (fun e =>
    if e.1 = v then some e.2 else if e.2 = v then some e.1 else none)

/-- Movement phase (`simulate_parallel` lines 26–34, `simulate_serial` lines
107–108): every slot is rewritten from its own previous value by `move` over
the neighborhood of its current location.  Each iteration reads and writes
only its own slot, so serial and chunked execution coincide and the phase is a
per-index map. -/
def movePhase (nbh : Nat → List Nat) (mt : Nat → Nat) (inds : List Individual) :
    List Individual :=
  (List.range inds.length).map (fun i =>
    let cur := inds.getD i d0
    cur.move (nbh cur.location) (mt i))

/-- Serial infection phase (`simulate_serial` lines 111–125): iterate over the
(live) array; every individual currently infected calls `try_infect` on every
other individual sharing its location.  Writes land in the array immediately,
so individuals infected earlier in the same scan act as sources for later
outer iterations. -/
def infPhaseSerial (it : Nat → Nat → Bool) (inds : List Individual) :
    List Individual :=
  (List.range inds.length).foldl (fun arr j =>
    if (arr.getD j d0).is_infected then
      (List.range inds.length).foldl (fun arr2 k =>
        if j ≠ k then
          if (arr2.getD j d0).location = (arr2.getD k d0).location then
            arr2.set k ((arr2.getD k d0).try_infect (it j k))
          else arr2
        else arr2) arr
    else arr) inds

/-- Inner scan of the parallel infection phase (`simulate_parallel` lines
46–58): walk the whole population; at every individual that reads as infected
and shares the current individual's location, call `try_infect`; stop as soon
as the current individual has become infected (failed attempts keep
scanning). -/
def infScan (read : Nat → Individual) (draw : Nat → Bool) :
    List Nat → Individual → Individual
  | [], cur => cur
  | k :: ks, cur =>
    if (read k).is_infected then
      if cur.location = (read k).location then
        let cur2 := cur.try_infect (draw k)
        if cur2.is_infected then cur2 else infScan read draw ks cur2
      else infScan read draw ks cur
    else infScan read draw ks cur

/-- One worker's infection-phase execution over its chunk (`simulate_parallel`
lines 42–60), starting from the phase-start array `snap`.  Slots outside the
chunk are never written; reads see the worker's own prior writes (same shared
array) and, per the no-flush schedule described in the header, the phase-start
values of every other worker's slots. -/
def processChunk (it : Nat → Nat → Bool) (chunk : List Nat)
    (snap : List Individual) : List Individual :=
  chunk.foldl (fun view i =>
    if (view.getD i d0).is_infected then view
    else
      view.set i (infScan (fun k => view.getD k d0) (fun k => it k i)
        (List.range view.length) (view.getD i d0))) snap

/-- Combine one worker's result into the shared array: only the worker's own
chunk indices are written back (each worker writes exclusively inside its
partition). -/
def mergeChunk (res : List Individual) (chunk : List Nat)
    (acc : List Individual) : List Individual :=
  chunk.foldl (fun a i => a.set i (res.getD i d0)) acc

/-- Parallel infection phase (`simulate_parallel` lines 38–62): every worker
runs `processChunk` from the phase-start array; at the closing barrier the
workers' writes (each confined to its own chunk) are all visible. -/
def infPhasePar (it : Nat → Nat → Bool) (chunks : List (List Nat))
    (snap : List Individual) : List Individual :=
  chunks.foldl (fun acc ch => mergeChunk (processChunk it ch snap) ch acc) snap

/-- Advance phase (`simulate_parallel` lines 71–74, `simulate_serial` line
131): every slot is rewritten from its own previous value by
`advance_epoch`. -/
def advancePhase (th : Nat) (inds : List Individual) : List Individual :=
  (List.range inds.length).map (fun i => (inds.getD i d0).advance_epoch th)

/-- Statistics of the serial engine (`simulate_serial` lines 127–138): two
independent counter loops, `hit_count` incremented when `is_hit`,
`infected_count` when `is_infected`; rendered as counts.  Result:
`(hit_count, infected_count)`. -/
def statsSerial (inds : List Individual) : Nat × Nat :=
  (inds.countP (fun ind => ind.is_hit), inds.countP (fun ind => ind.is_infected))

/-- Statistics of the parallel engine (`simulate_parallel` lines 65–81):
`if infected { ++infected; ++hit } else if hit { ++hit }`, accumulated with an
OpenMP `reduction(+)` (a commutative sum, hence a count).  Result:
`(hit_count, infected_count)`. -/
def statsPar (inds : List Individual) : Nat × Nat :=
  (inds.countP (fun ind => ind.is_infected || ind.is_hit),
   inds.countP (fun ind => ind.is_infected))

/-- One epoch of `simulate_serial` (lines 104–139): movement, live-array
infection, advance, then push the `(hit_count, infected_count)` tuple. -/
def stepSerial (nbh : Nat → List Nat) (th : Nat) (mt : Nat → Nat)
    (it : Nat → Nat → Bool) (inds : List Individual) :
    List Individual × (Nat × Nat) :=
  let moved := movePhase nbh mt inds
  let infd := infPhaseSerial it moved
  let adv := advancePhase th infd
  (adv, statsSerial adv)

/-- Epoch loop of `simulate_serial` starting at epoch `e` with `fuel`
remaining iterations; returns the final population and the statistics tuples
in epoch order. -/
def runSerialFrom (nbh : Nat → List Nat) (th : Nat) (mt : Nat → Nat → Nat)
    (it : Nat → Nat → Nat → Bool) : Nat → Nat → List Individual →
    List Individual × List (Nat × Nat)
  | _, 0, inds => (inds, [])
  | e, fuel + 1, inds =>
    let r1 := stepSerial nbh th (mt e) (it e) inds
    let r2 := runSerialFrom nbh th mt it (e + 1) fuel r1.1
    (r2.1, r1.2 :: r2.2)

/-- `simulate_serial` (lines 95–148): `total_epochs` is a plain `int` there,
so the loop `for (e = 0; e < total_epochs + 1; ++e)` runs exactly
`total_epochs + 1` times. -/
def simulate_serial (nbh : Nat → List Nat) (th : Nat) (mt : Nat → Nat → Nat)
    (it : Nat → Nat → Nat → Bool) (total_epochs : Nat)
    (inds : List Individual) : List Individual × List (Nat × Nat) :=
  runSerialFrom nbh th mt it 0 (total_epochs + 1) inds

/-- One epoch of `simulate_parallel` (lines 20–85): chunked movement (equal to
a per-index map, each slot depending only on itself), chunked infection phase,
chunked advance (again a per-index map), reduction statistics, push tuple. -/
def stepPar (nbh : Nat → List Nat) (th : Nat) (chunks : List (List Nat))
    (mt : Nat → Nat) (it : Nat → Nat → Bool) (inds : List Individual) :
    List Individual × (Nat × Nat) :=
  let moved := movePhase nbh mt inds
  let infd := infPhasePar it chunks moved
  let adv := advancePhase th infd
  (adv, statsPar adv)

/-- Epoch loop of `simulate_parallel` with an explicit iteration count. -/
def runParFrom (nbh : Nat → List Nat) (th : Nat) (chunks : List (List Nat))
    (mt : Nat → Nat → Nat) (it : Nat → Nat → Nat → Bool) :
    Nat → Nat → List Individual → List Individual × List (Nat × Nat)
  | _, 0, inds => (inds, [])
  | e, fuel + 1, inds =>
    let r1 := stepPar nbh th chunks (mt e) (it e) inds
    let r2 := runParFrom nbh th chunks mt it (e + 1) fuel r1.1
    (r2.1, r1.2 :: r2.2)

/-- Iteration count of the epoch loop of `simulate_parallel` (line 20):
`for (uint8_t e = 0; e < total_epochs + 1; ++e)`.  The bound
`total_epochs + 1` is computed after integer promotion (no wrap-around), but
the counter `e` is a `uint8_t` and wraps modulo 256.  `bound` is the promoted
bound, `e` the current counter pre-image, and the fuel bounds the search: the
counter is periodic with period 256, so if the guard has not failed within 257
steps it never fails and the loop does not terminate (`none`). -/
def uint8LoopIters (bound : Nat) : Nat → Nat → Option Nat
  | 0, _ => none
  | fuel + 1, e =>
    if e % 256 < bound then (uint8LoopIters bound fuel (e + 1)).map (· + 1)
    else some 0

/-- Number of epoch-loop iterations `simulate_parallel` executes for a given
`uint8_t total_epochs` value; `none` when the loop never terminates. -/
def epochIterCount (total_epochs : Nat) : Option Nat :=
  uint8LoopIters (total_epochs % 256 + 1) 257 0

/-- `simulate_parallel` (lines 10–93): runs the epoch loop and appends one
statistics tuple per completed epoch to the caller-supplied `prior` vector
(the vector is only ever `push_back`ed, never cleared).  `none` models the
non-terminating `uint8_t` wrap-around case. -/
def simulate_parallel (nbh : Nat → List Nat) (th : Nat)
    (chunks : List (List Nat)) (mt : Nat → Nat → Nat)
    (it : Nat → Nat → Nat → Bool) (total_epochs : Nat)
    (inds : List Individual) (prior : List (Nat × Nat)) :
    Option (List Individual × List (Nat × Nat)) :=
  (epochIterCount total_epochs).map (fun iters =>
    let r := runParFrom nbh th chunks mt it 0 iters inds
    (r.1, prior ++ r.2))

/-- The static OpenMP partition (`schedule(static, chunk)` with
`chunk = n / workers`, lines 13–14): `workers` contiguous chunks of size
`n / workers`; when `workers` divides `n` evenly these cover the index range
exactly. -/
def staticChunks (n workers : Nat) : List (List Nat) :=
  (List.range workers).map (fun w =>
    (List.range (n / workers)).map (fun j => w * (n / workers) + j))

/-- Modelled from the spec (§3 lifecycle):
`GraphHandler::get_random_individuals` builds `n` fresh susceptible
individuals at randomized locations (`GraphHandler.h` is not among the
available sources). -/
def get_random_individuals (n location_count : Nat) (tape : Nat → Nat) :
    List Individual :=
  (List.range n).map (fun i => ⟨tape i % location_count, InfState.Susceptible, 0, false⟩)

/-- One step of the seeding loop of `reset_input` (line 161):
`individuals[i].infect()`.  An index at or beyond the vector length is an
out-of-bounds access (undefined behavior in the C++), modelled as `none`. -/
def infectAt (inds : List Individual) (i : Nat) : Option (List Individual) :=
  if h : i < inds.length then some (inds.set i (inds.get ⟨i, h⟩).infect)
  else none

/-- The seeding loop of `reset_input` (lines 160–162):
`for (i = 0; i < INITIAL_INFECTED_COUNT; ++i) individuals[i].infect();` with
no bound check against the population size. -/
def seedInfect (inds : List Individual) : Nat → Option (List Individual)
  | 0 => some inds
  | k + 1 => (seedInfect inds k).bind (fun l => infectAt l k)

/-- `reset_input` (lines 150–163): build the random population, then run the
unchecked seeding loop. -/
def reset_input (n location_count initial_infected : Nat) (tape : Nat → Nat) :
    Option (List Individual) :=
  seedInfect (get_random_individuals n location_count tape) initial_infected

/-! ### Spec-side snapshot engine

The following `spec*` definitions follow the specification's words (spec §4.3
snapshot rule and §5), not the source: they exist to compare the source
engines against the spec's normative snapshot-read semantics for the
refinement claims. -/

/-- Write slot `i := f i` for every index of every chunk, starting from
`init`.  This is the spec §5 execution shape of one phase: each worker writes
only its own partition, and `f` reads only phase-start data. -/
def specApplyChunks (f : Nat → Individual) (chunks : List (List Nat))
    (init : List Individual) : List Individual :=
  chunks.foldl (fun acc ch => ch.foldl (fun a i => a.set i (f i)) acc) init

/-- Spec §4.3 infection rule for one individual: if Susceptible, scan the
phase-start snapshot for the first infected individual sharing the location;
on that first match call `try_infect` and stop. -/
def specInfectRead (it : Nat → Nat → Bool) (snap : List Individual) (i : Nat) :
    Individual :=
  let cur := snap.getD i d0
  match cur.state with
  | InfState.Susceptible =>
    match (List.range snap.length).find? (fun k =>
        (snap.getD k d0).is_infected && ((snap.getD k d0).location == cur.location)) with
    | some k => cur.try_infect (it k i)
    | none => cur
  | _ => cur

/-- Spec engine, movement phase over a partition. -/
def specMovePhase (nbh : Nat → List Nat) (mt : Nat → Nat)
    (chunks : List (List Nat)) (inds : List Individual) : List Individual :=
  specApplyChunks (fun i =>
    let cur := inds.getD i d0
    cur.move (nbh cur.location) (mt i)) chunks inds

/-- Spec engine, snapshot infection phase over a partition. -/
def specInfPhase (it : Nat → Nat → Bool) (chunks : List (List Nat))
    (snap : List Individual) : List Individual :=
  specApplyChunks (specInfectRead it snap) chunks snap

/-- Spec engine, advance phase over a partition. -/
def specAdvPhase (th : Nat) (chunks : List (List Nat))
    (inds : List Individual) : List Individual :=
  specApplyChunks (fun i => (inds.getD i d0).advance_epoch th) chunks inds

/-- Per-worker partial sums combined at the barrier (spec §4.3 phase 3). -/
def chunkSum (g : Nat → Nat) (chunks : List (List Nat)) : Nat :=
  (chunks.map (fun ch => (ch.map g).sum)).sum

/-- Spec engine statistics: `hit = everHit`, `infected = (state = Infected)`,
summed per worker and combined. -/
def specStats (chunks : List (List Nat)) (inds : List Individual) : Nat × Nat :=
  (chunkSum (fun i => if (inds.getD i d0).is_hit then 1 else 0) chunks,
   chunkSum (fun i => if (inds.getD i d0).is_infected then 1 else 0) chunks)

/-- One epoch of the spec engine over a partition. -/
def specStep (nbh : Nat → List Nat) (th : Nat) (chunks : List (List Nat))
    (mt : Nat → Nat) (it : Nat → Nat → Bool) (inds : List Individual) :
    List Individual × (Nat × Nat) :=
  let moved := specMovePhase nbh mt chunks inds
  let infd := specInfPhase it chunks moved
  let adv := specAdvPhase th chunks infd
  (adv, specStats chunks adv)

/-- Epoch loop of the spec engine. -/
def specRunFrom (nbh : Nat → List Nat) (th : Nat) (chunks : List (List Nat))
    (mt : Nat → Nat → Nat) (it : Nat → Nat → Nat → Bool) :
    Nat → Nat → List Individual → List Individual × List (Nat × Nat)
  | _, 0, inds => (inds, [])
  | e, fuel + 1, inds =>
    let r1 := specStep nbh th chunks (mt e) (it e) inds
    let r2 := specRunFrom nbh th chunks mt it (e + 1) fuel r1.1
    (r2.1, r1.2 :: r2.2)

/-- The spec engine, epochs `0 … total_epochs` over a partition. -/
def specRun (nbh : Nat → List Nat) (th : Nat) (chunks : List (List Nat))
    (mt : Nat → Nat → Nat) (it : Nat → Nat → Nat → Bool) (total_epochs : Nat)
    (inds : List Individual) : List Individual × List (Nat × Nat) :=
  specRunFrom nbh th chunks mt it 0 (total_epochs + 1) inds

/-! ### Derived notions used by the statements -/

/-- The partition in which every worker owns exactly one individual: with it,
every read of the infection phase is a read of another worker's slot. -/
def singletonChunks (n : Nat) : List (List Nat) :=
  (List.range n).map (fun i => [i])

/-- One individual's infection-phase outcome when every read observes the
phase-start array `snap` (the body of `simulate_parallel` lines 43–59 with all
reads taken from `snap`): skip if already infected, otherwise run the scan
over the snapshot. -/
def parInfectRead (it : Nat → Nat → Bool) (snap : List Individual) (i : Nat) :
    Individual :=
  if (snap.getD i d0).is_infected then snap.getD i d0
  else infScan (fun k => snap.getD k d0) (fun k => it k i)
    (List.range snap.length) (snap.getD i d0)

/-- The population invariant behind `infectedCount ≤ hitCount`: an infected
individual has its cumulative hit flag set. -/
def Inv (ind : Individual) : Prop := ind.is_infected = true → ind.is_hit = true

/-- Every member of the population satisfies `Inv`.  Holds for the seeded
initial populations: seeds are force-infected with `everHit = true` and
everybody else starts susceptible. -/
def AllInv (l : List Individual) : Prop := ∀ x ∈ l, Inv x

/-- Frame relation of one infection-phase slot: it is either untouched or, if
it was susceptible, transitioned to freshly infected. -/
def FrameR (a b : Individual) : Prop :=
  b = a ∨ (a.state = InfState.Susceptible ∧ b = a.infect)

instance (ind : Individual) : Decidable (Inv ind) := by
  unfold Inv
  exact inferInstance

instance (l : List Individual) : Decidable (AllInv l) := by
  unfold AllInv
  exact List.decidableBAll _ l

/-! ### Concrete inputs used by the closed statements -/

/-- A single isolated location. -/
def exGraph : LocationUndirectedGraph := ⟨1, []⟩

/-- Neighborhood lookup of the isolated location: `[0]`. -/
def exNbh : Nat → List Nat := neighborhood_of exGraph

/-- Three co-located individuals: an infected seed at index 0 and two
susceptibles.  With the draws `exIt`, the serial engine's live cascade infects
both susceptibles (0 infects 1, then the freshly infected 1 infects 2), while
a 3-worker partitioned run leaves index 2 susceptible (its only successful
source, 1, is in another worker's chunk). -/
def exInds : List Individual :=
  [⟨0, InfState.Infected, 0, true⟩,
   ⟨0, InfState.Susceptible, 0, false⟩,
   ⟨0, InfState.Susceptible, 0, false⟩]

/-- Four individuals for the partition-independence witness. -/
def exInds4 : List Individual :=
  [⟨0, InfState.Infected, 0, true⟩,
   ⟨0, InfState.Susceptible, 0, false⟩,
   ⟨0, InfState.Susceptible, 0, false⟩,
   ⟨0, InfState.Recovered, 3, true⟩]

/-- Movement draws: always pick the first candidate (stay). -/
def exMt : Nat → Nat → Nat := fun _ _ => 0

/-- Infection draws per (epoch, source, target): the attempt of individual 0
on individual 1 succeeds, the attempt of 0 on 2 fails, the attempt of 1 on 2
succeeds. -/
def exIt : Nat → Nat → Nat → Bool :=
  fun _ s t => decide ((s, t) = (0, 1) ∨ (s, t) = (1, 2))

/-- Scan read for the stop-at-first counterexample: indices 0 and 1 both hold
infected individuals at location 0. -/
def exScanRead : Nat → Individual :=
  fun k => if k = 0 then ⟨0, InfState.Infected, 0, true⟩
    else if k = 1 then ⟨0, InfState.Infected, 0, true⟩ else d0

/-- Scan draws: the attempt from source 0 fails, the attempt from source 1
succeeds. -/
def exScanDraw : Nat → Bool := fun k => decide (k = 1)

/-- The susceptible individual being scanned in the stop-at-first
counterexample. -/
def exScanCur : Individual := ⟨0, InfState.Susceptible, 0, false⟩

/-! ## Lemmas about the individual state machine -/

theorem is_infected_iff (ind : Individual) :
    ind.is_infected = true ↔ ind.state = InfState.Infected := by
  obtain ⟨loc, st, dur, hit⟩ := ind
  cases st <;> simp [Individual.is_infected]

theorem Inv_d0 : Inv d0 := by
  intro h
  simp [d0, Individual.is_infected] at h

theorem try_infect_cases (ind : Individual) (b : Bool) :
    ind.try_infect b = ind ∨
      (ind.state = InfState.Susceptible ∧ ind.try_infect b = ind.infect) := by
  obtain ⟨loc, st, dur, hit⟩ := ind
  cases st <;> cases b <;> simp [Individual.try_infect, Individual.infect]

theorem FrameR_try_infect (ind : Individual) (b : Bool) :
    FrameR ind (ind.try_infect b) := try_infect_cases ind b

theorem FrameR_refl (a : Individual) : FrameR a a := Or.inl rfl

theorem infect_is_infected (ind : Individual) : ind.infect.is_infected = true := rfl

theorem infect_is_hit (ind : Individual) : ind.infect.is_hit = true := rfl

theorem infect_state (ind : Individual) : ind.infect.state = InfState.Infected := rfl

theorem FrameR_trans {a b c : Individual} (h1 : FrameR a b) (h2 : FrameR b c) :
    FrameR a c := by
  rcases h1 with rfl | ⟨hs, rfl⟩
  · exact h2
  · rcases h2 with rfl | ⟨hs2, rfl⟩
    · exact Or.inr ⟨hs, rfl⟩
    · rw [infect_state] at hs2
      cases hs2

theorem FrameR_hit_mono {a b : Individual} (h : FrameR a b)
    (ha : a.is_hit = true) : b.is_hit = true := by
  rcases h with rfl | ⟨_, rfl⟩
  · exact ha
  · exact infect_is_hit a

theorem FrameR_inv {a b : Individual} (h : FrameR a b) (ha : Inv a) : Inv b := by
  rcases h with rfl | ⟨_, rfl⟩
  · exact ha
  · intro _
    exact infect_is_hit a

theorem move_is_infected (ind : Individual) (cands : List Nat) (r : Nat) :
    (ind.move cands r).is_infected = ind.is_infected := by
  cases cands <;> rfl

theorem move_is_hit (ind : Individual) (cands : List Nat) (r : Nat) :
    (ind.move cands r).is_hit = ind.is_hit := by
  cases cands <;> rfl

theorem Inv_move (ind : Individual) (cands : List Nat) (r : Nat) (h : Inv ind) :
    Inv (ind.move cands r) := by
  intro hinf
  rw [move_is_hit]
  exact h (by rwa [move_is_infected] at hinf)

theorem advance_is_hit (ind : Individual) (th : Nat) :
    (ind.advance_epoch th).is_hit = ind.is_hit := by
  obtain ⟨loc, st, dur, hit⟩ := ind
  cases st <;> simp [Individual.advance_epoch, Individual.is_hit]
  split <;> rfl

theorem advance_is_infected_mono (ind : Individual) (th : Nat)
    (h : (ind.advance_epoch th).is_infected = true) : ind.is_infected = true := by
  obtain ⟨loc, st, dur, hit⟩ := ind
  cases st <;> simp [Individual.advance_epoch, Individual.is_infected] at h ⊢

theorem Inv_advance (ind : Individual) (th : Nat) (h : Inv ind) :
    Inv (ind.advance_epoch th) := by
  intro hinf
  rw [advance_is_hit]
  exact h (advance_is_infected_mono ind th hinf)

theorem try_infect_false (ind : Individual) : ind.try_infect false = ind := by
  obtain ⟨loc, st, dur, hit⟩ := ind
  cases st <;> rfl

theorem try_infect_sus_true (ind : Individual)
    (h : ind.state = InfState.Susceptible) : ind.try_infect true = ind.infect := by
  obtain ⟨loc, st, dur, hit⟩ := ind
  cases st <;> simp_all [Individual.try_infect, Individual.infect]

theorem try_infect_nonsus (ind : Individual) (b : Bool)
    (h : ind.state ≠ InfState.Susceptible) : ind.try_infect b = ind := by
  obtain ⟨loc, st, dur, hit⟩ := ind
  cases st <;> cases b <;> simp_all [Individual.try_infect]

theorem sus_not_infected (ind : Individual)
    (h : ind.state = InfState.Susceptible) : ind.is_infected = false := by
  obtain ⟨loc, st, dur, hit⟩ := ind
  cases st <;> simp_all [Individual.is_infected]

/-! ## List plumbing -/

theorem getD_eq_d0_of_le (l : List Individual) (i : Nat) (h : l.length ≤ i) :
    l.getD i d0 = d0 := by
  rw [List.getD_eq_getElem?_getD, List.getElem?_eq_none h]
  rfl

theorem getD_set (l : List Individual) (i j : Nat) (v : Individual) :
    (l.set i v).getD j d0 = if i = j ∧ i < l.length then v else l.getD j d0 := by
  rw [List.getD_eq_getElem?_getD, List.getD_eq_getElem?_getD, List.getElem?_set]
  by_cases hij : i = j
  · subst hij
    by_cases hlt : i < l.length
    · simp [hlt]
    · simp [hlt, List.getElem?_eq_none (by omega : l.length ≤ i)]
  · simp [hij]

theorem AllInv_getD (l : List Individual) (h : AllInv l) (i : Nat) :
    Inv (l.getD i d0) := by
  by_cases hi : i < l.length
  · rw [List.getD_eq_getElem l d0 hi]
    exact h _ (l.getElem_mem hi)
  · rw [getD_eq_d0_of_le l i (by omega)]
    exact Inv_d0

theorem AllInv_of_getD (l : List Individual) (h : ∀ i, Inv (l.getD i d0)) :
    AllInv l := by
  intro x hx
  obtain ⟨i, hi, rfl⟩ := List.mem_iff_getElem.1 hx
  rw [← List.getD_eq_getElem l d0 hi]
  exact h i

theorem countP_le_of_pointwise (p : Individual → Bool) :
    ∀ (l1 l2 : List Individual), l1.length = l2.length →
      (∀ i, p (l1.getD i d0) = true → p (l2.getD i d0) = true) →
      l1.countP p ≤ l2.countP p := by
  intro l1
  induction l1 with
  | nil => intro l2 _ _; simp
  | cons a l1 ih =>
    intro l2 hlen hp
    cases l2 with
    | nil => simp at hlen
    | cons b l2 =>
      rw [List.countP_cons, List.countP_cons]
      have h0 := hp 0
      simp only [List.getD_cons_zero] at h0
      have htail := ih l2 (by simpa using hlen) (fun i => by
        have := hp (i + 1)
        simpa only [List.getD_cons_succ] using this)
      by_cases hpa : p a = true
      · simp [hpa, h0 hpa]
        omega
      · simp [hpa]
        split <;> omega

theorem foldl_congr_mem {α β : Type} (f g : β → α → β) :
    ∀ (l : List α) (init : β), (∀ a ∈ l, ∀ acc, f acc a = g acc a) →
      l.foldl f init = l.foldl g init := by
  intro l
  induction l with
  | nil => intro init _; rfl
  | cons a l ih =>
    intro init h
    rw [List.foldl_cons, List.foldl_cons, h a (by simp)]
    exact ih _ (fun x hx acc => h x (by simp [hx]) acc)

theorem setFold_length (f : Nat → Individual) :
    ∀ (ch : List Nat) (a : List Individual),
      (ch.foldl (fun a i => a.set i (f i)) a).length = a.length := by
  intro ch
  induction ch with
  | nil => intro a; rfl
  | cons i ch ih => intro a; rw [List.foldl_cons, ih, List.length_set]

theorem setFold_getD (f : Nat → Individual) :
    ∀ (ch : List Nat) (a : List Individual) (j : Nat),
      (ch.foldl (fun a i => a.set i (f i)) a).getD j d0 =
        if j ∈ ch ∧ j < a.length then f j else a.getD j d0 := by
  intro ch
  induction ch with
  | nil => intro a j; simp
  | cons i ch ih =>
    intro a j
    rw [List.foldl_cons, ih, List.length_set, getD_set]
    by_cases hm : j ∈ ch
    · by_cases hlt : j < a.length
      · simp [hm, hlt, List.mem_cons]
      · simp [hm, hlt, List.mem_cons]
        intro h1 h2
        omega
    · by_cases hij : i = j
      · subst hij
        by_cases hlt : i < a.length <;> simp [hm, hlt, List.mem_cons]
      · simp [hm, Ne.symm hij, List.mem_cons, hij]

theorem specApplyChunks_cons (f : Nat → Individual) (ch : List Nat)
    (chunks : List (List Nat)) (init : List Individual) :
    specApplyChunks f (ch :: chunks) init =
      specApplyChunks f chunks (ch.foldl (fun a i => a.set i (f i)) init) := by
  simp [specApplyChunks]

theorem specApplyChunks_length (f : Nat → Individual) :
    ∀ (chunks : List (List Nat)) (init : List Individual),
      (specApplyChunks f chunks init).length = init.length := by
  intro chunks
  induction chunks with
  | nil => intro init; rfl
  | cons ch chunks ih =>
    intro init
    rw [specApplyChunks_cons, ih, setFold_length]

theorem specApplyChunks_getD (f : Nat → Individual) :
    ∀ (chunks : List (List Nat)) (init : List Individual) (j : Nat),
      (specApplyChunks f chunks init).getD j d0 =
        if j ∈ chunks.flatten ∧ j < init.length then f j else init.getD j d0 := by
  intro chunks
  induction chunks with
  | nil => intro init j; simp [specApplyChunks]
  | cons ch chunks ih =>
    intro init j
    rw [specApplyChunks_cons, ih, setFold_length, setFold_getD, List.flatten_cons]
    by_cases hch : j ∈ ch
    · by_cases hlt : j < init.length <;> simp [hch, hlt, List.mem_append]
    · by_cases hfl : j ∈ chunks.flatten
      · by_cases hlt : j < init.length <;> simp [hch, hfl, hlt, List.mem_append]
      · simp [hch, hfl, List.mem_append]

theorem specApplyChunks_eq_map (f : Nat → Individual) (chunks : List (List Nat))
    (init : List Individual) (h : chunks.flatten.Perm (List.range init.length)) :
    specApplyChunks f chunks init = (List.range init.length).map f := by
  apply List.ext_getElem
  · rw [specApplyChunks_length, List.length_map, List.length_range]
  · intro n h1 h2
    have hn : n < init.length := by rwa [specApplyChunks_length] at h1
    have hmem : n ∈ chunks.flatten := h.mem_iff.2 (List.mem_range.2 hn)
    have hg := specApplyChunks_getD f chunks init n
    rw [if_pos ⟨hmem, hn⟩] at hg
    rw [← List.getD_eq_getElem _ d0 h1, hg, List.getElem_map, List.getElem_range]

theorem chunkSum_eq_sum_range (g : Nat → Nat) (chunks : List (List Nat)) (n : Nat)
    (h : chunks.flatten.Perm (List.range n)) :
    chunkSum g chunks = ((List.range n).map g).sum := by
  have h1 : chunkSum g chunks = (chunks.flatten.map g).sum := by
    rw [chunkSum, List.map_flatten, List.sum_flatten, List.map_map]
    rfl
  rw [h1]
  exact (h.map g).sum_eq

/-! ## The scan of the parallel infection phase -/

theorem infScan_frame (read : Nat → Individual) (draw : Nat → Bool) :
    ∀ (ks : List Nat) (cur : Individual), FrameR cur (infScan read draw ks cur) := by
  intro ks
  induction ks with
  | nil => intro cur; exact FrameR_refl cur
  | cons k ks ih =>
    intro cur
    rw [infScan]
    by_cases h1 : (read k).is_infected = true
    · rw [if_pos h1]
      by_cases h2 : cur.location = (read k).location
      · rw [if_pos h2]
        by_cases h3 : (cur.try_infect (draw k)).is_infected = true
        · rw [if_pos h3]
          exact FrameR_try_infect cur (draw k)
        · rw [if_neg h3]
          exact FrameR_trans (FrameR_try_infect cur (draw k)) (ih _)
      · rw [if_neg h2]
        exact ih cur
    · rw [if_neg h1]
      exact ih cur

/-- C5 (amended): the infection-phase scan of `simulate_parallel` runs over
every individual that is not currently infected — so `try_infect` is also
invoked on `Recovered` individuals, on which it is a no-op and the scan
returns the individual unchanged (first conjunct) — and for a `Susceptible`
individual the scan stops at the first co-located infected individual whose
infection draw *succeeds*: the individual ends the scan infected exactly when
some individual read as infected shares its location and has a successful
draw, failed attempts letting the scan continue (second conjunct). -/
theorem infScan_characterization (read : Nat → Individual) (draw : Nat → Bool) :
    ∀ (ks : List Nat) (cur : Individual),
      (cur.state ≠ InfState.Susceptible → infScan read draw ks cur = cur) ∧
      (cur.state = InfState.Susceptible →
        (infScan read draw ks cur = cur.infect ↔
          ∃ k ∈ ks, (read k).is_infected = true ∧
            (read k).location = cur.location ∧ draw k = true)) := by
  intro ks
  induction ks with
  | nil =>
    intro cur
    refine ⟨fun _ => rfl, fun hs => ?_⟩
    simp only [infScan, List.not_mem_nil, false_and, exists_false, iff_false]
    intro h
    have := congrArg Individual.state h
    rw [infect_state, hs] at this
    cases this
  | cons k ks ih =>
    intro cur
    constructor
    · intro hns
      rw [infScan, try_infect_nonsus cur (draw k) hns]
      by_cases h1 : (read k).is_infected = true
      · rw [if_pos h1]
        by_cases h2 : cur.location = (read k).location
        · rw [if_pos h2]
          by_cases h3 : cur.is_infected = true
          · rw [if_pos h3]
          · rw [if_neg h3]
            exact (ih cur).1 hns
        · rw [if_neg h2]
          exact (ih cur).1 hns
      · rw [if_neg h1]
        exact (ih cur).1 hns
    · intro hs
      rw [infScan]
      by_cases h1 : (read k).is_infected = true
      · by_cases h2 : cur.location = (read k).location
        · rw [if_pos h1, if_pos h2]
          cases hd : draw k with
          | true =>
            rw [try_infect_sus_true cur hs, if_pos (infect_is_infected cur)]
            simp only [true_iff]
            exact ⟨k, by simp, h1, h2.symm, hd⟩
          | false =>
            rw [try_infect_false cur, if_neg (by rw [sus_not_infected cur hs]; simp)]
            rw [(ih cur).2 hs]
            constructor
            · rintro ⟨m, hm, h⟩
              exact ⟨m, by simp [hm], h⟩
            · rintro ⟨m, hm, hinf, hloc, hdm⟩
              rcases List.mem_cons.1 hm with rfl | hm
              · rw [hd] at hdm
                cases hdm
              · exact ⟨m, hm, hinf, hloc, hdm⟩
        · rw [if_pos h1, if_neg h2, (ih cur).2 hs]
          constructor
          · rintro ⟨m, hm, h⟩
            exact ⟨m, by simp [hm], h⟩
          · rintro ⟨m, hm, hinf, hloc, hdm⟩
            rcases List.mem_cons.1 hm with rfl | hm
            · exact absurd hloc.symm h2
            · exact ⟨m, hm, hinf, hloc, hdm⟩
      · rw [if_neg h1, (ih cur).2 hs]
        constructor
        · rintro ⟨m, hm, h⟩
          exact ⟨m, by simp [hm], h⟩
        · rintro ⟨m, hm, hinf, hloc, hdm⟩
          rcases List.mem_cons.1 hm with rfl | hm
          · exact absurd hinf h1
          · exact ⟨m, hm, hinf, hloc, hdm⟩

/-! ## Frame analysis of the infection phases -/

theorem infFold_frame (it : Nat → Nat → Bool) (snap : List Individual) :
    ∀ (ch : List Nat) (view : List Individual),
      view.length = snap.length →
      (∀ j, FrameR (snap.getD j d0) (view.getD j d0)) →
      (ch.foldl (fun view i =>
          if (view.getD i d0).is_infected then view
          else view.set i (infScan (fun k => view.getD k d0) (fun k => it k i)
            (List.range view.length) (view.getD i d0))) view).length = snap.length ∧
      ∀ j, FrameR (snap.getD j d0)
        ((ch.foldl (fun view i =>
          if (view.getD i d0).is_infected then view
          else view.set i (infScan (fun k => view.getD k d0) (fun k => it k i)
            (List.range view.length) (view.getD i d0))) view).getD j d0) := by
  intro ch
  induction ch with
  | nil => intro view h1 h2; exact ⟨h1, h2⟩
  | cons i ch ih =>
    intro view h1 h2
    rw [List.foldl_cons]
    by_cases hc : (view.getD i d0).is_infected = true
    · rw [if_pos hc]
      exact ih view h1 h2
    · rw [if_neg hc]
      apply ih
      · rw [List.length_set, h1]
      · intro j
        rw [getD_set]
        by_cases hij : i = j ∧ i < view.length
        · rw [if_pos hij]
          rcases hij with ⟨rfl, _⟩
          exact FrameR_trans (h2 i) (infScan_frame _ _ _ _)
        · rw [if_neg hij]
          exact h2 j

theorem processChunk_length (it : Nat → Nat → Bool) (ch : List Nat)
    (snap : List Individual) : (processChunk it ch snap).length = snap.length :=
  (infFold_frame it snap ch snap rfl (fun j => FrameR_refl _)).1

theorem processChunk_getD_frame (it : Nat → Nat → Bool) (ch : List Nat)
    (snap : List Individual) (j : Nat) :
    FrameR (snap.getD j d0) ((processChunk it ch snap).getD j d0) :=
  (infFold_frame it snap ch snap rfl (fun j => FrameR_refl _)).2 j

theorem mergeChunk_length (res : List Individual) (ch : List Nat)
    (acc : List Individual) : (mergeChunk res ch acc).length = acc.length :=
  setFold_length (fun i => res.getD i d0) ch acc

theorem mergeChunk_getD (res : List Individual) (ch : List Nat)
    (acc : List Individual) (j : Nat) :
    (mergeChunk res ch acc).getD j d0 =
      if j ∈ ch ∧ j < acc.length then res.getD j d0 else acc.getD j d0 :=
  setFold_getD (fun i => res.getD i d0) ch acc j

theorem parFold_frame (it : Nat → Nat → Bool) (snap : List Individual) :
    ∀ (chunks : List (List Nat)) (acc : List Individual),
      acc.length = snap.length →
      (∀ j, FrameR (snap.getD j d0) (acc.getD j d0)) →
      (chunks.foldl (fun acc ch => mergeChunk (processChunk it ch snap) ch acc)
          acc).length = snap.length ∧
      ∀ j, FrameR (snap.getD j d0)
        ((chunks.foldl (fun acc ch => mergeChunk (processChunk it ch snap) ch acc)
          acc).getD j d0) := by
  intro chunks
  induction chunks with
  | nil => intro acc h1 h2; exact ⟨h1, h2⟩
  | cons ch chunks ih =>
    intro acc h1 h2
    rw [List.foldl_cons]
    apply ih
    · rw [mergeChunk_length, h1]
    · intro j
      rw [mergeChunk_getD]
      by_cases hj : j ∈ ch ∧ j < acc.length
      · rw [if_pos hj]
        exact processChunk_getD_frame it ch snap j
      · rw [if_neg hj]
        exact h2 j

theorem infPhasePar_length (it : Nat → Nat → Bool) (chunks : List (List Nat))
    (snap : List Individual) : (infPhasePar it chunks snap).length = snap.length :=
  (parFold_frame it snap chunks snap rfl (fun j => FrameR_refl _)).1

theorem infPhasePar_getD_frame (it : Nat → Nat → Bool) (chunks : List (List Nat))
    (snap : List Individual) (j : Nat) :
    FrameR (snap.getD j d0) ((infPhasePar it chunks snap).getD j d0) :=
  (parFold_frame it snap chunks snap rfl (fun j => FrameR_refl _)).2 j

theorem serialInner_frame (base : List Individual) (j : Nat) (dr : Nat → Bool) :
    ∀ (ks : List Nat) (arr : List Individual),
      arr.length = base.length →
      (∀ i, FrameR (base.getD i d0) (arr.getD i d0)) →
      (ks.foldl (fun arr2 k =>
          if j ≠ k then
            if (arr2.getD j d0).location = (arr2.getD k d0).location then
              arr2.set k ((arr2.getD k d0).try_infect (dr k))
            else arr2
          else arr2) arr).length = base.length ∧
      ∀ i, FrameR (base.getD i d0)
        ((ks.foldl (fun arr2 k =>
          if j ≠ k then
            if (arr2.getD j d0).location = (arr2.getD k d0).location then
              arr2.set k ((arr2.getD k d0).try_infect (dr k))
            else arr2
          else arr2) arr).getD i d0) := by
  intro ks
  induction ks with
  | nil => intro arr h1 h2; exact ⟨h1, h2⟩
  | cons k ks ih =>
    intro arr h1 h2
    rw [List.foldl_cons]
    by_cases hjk : j ≠ k
    · rw [if_pos hjk]
      by_cases hloc : (arr.getD j d0).location = (arr.getD k d0).location
      · rw [if_pos hloc]
        apply ih
        · rw [List.length_set, h1]
        · intro i
          rw [getD_set]
          by_cases hik : k = i ∧ k < arr.length
          · rw [if_pos hik]
            rcases hik with ⟨rfl, _⟩
            exact FrameR_trans (h2 k) (FrameR_try_infect _ _)
          · rw [if_neg hik]
            exact h2 i
      · rw [if_neg hloc]
        exact ih arr h1 h2
    · rw [if_neg hjk]
      exact ih arr h1 h2

theorem serialOuter_frame (base : List Individual) (it : Nat → Nat → Bool)
    (n : Nat) :
    ∀ (js : List Nat) (arr : List Individual),
      arr.length = base.length →
      (∀ i, FrameR (base.getD i d0) (arr.getD i d0)) →
      (js.foldl (fun arr j =>
          if (arr.getD j d0).is_infected then
            (List.range n).foldl (fun arr2 k =>
              if j ≠ k then
                if (arr2.getD j d0).location = (arr2.getD k d0).location then
                  arr2.set k ((arr2.getD k d0).try_infect (it j k))
                else arr2
              else arr2) arr
          else arr) arr).length = base.length ∧
      ∀ i, FrameR (base.getD i d0)
        ((js.foldl (fun arr j =>
          if (arr.getD j d0).is_infected then
            (List.range n).foldl (fun arr2 k =>
              if j ≠ k then
                if (arr2.getD j d0).location = (arr2.getD k d0).location then
                  arr2.set k ((arr2.getD k d0).try_infect (it j k))
                else arr2
              else arr2) arr
          else arr) arr).getD i d0) := by
  intro js
  induction js with
  | nil => intro arr h1 h2; exact ⟨h1, h2⟩
  | cons j js ih =>
    intro arr h1 h2
    rw [List.foldl_cons]
    by_cases hc : (arr.getD j d0).is_infected = true
    · rw [if_pos hc]
      have hinner := serialInner_frame base j (it j) (List.range n) arr h1 h2
      exact ih _ hinner.1 hinner.2
    · rw [if_neg hc]
      exact ih arr h1 h2

theorem infPhaseSerial_length (it : Nat → Nat → Bool) (inds : List Individual) :
    (infPhaseSerial it inds).length = inds.length :=
  (serialOuter_frame inds it inds.length (List.range inds.length) inds rfl
    (fun i => FrameR_refl _)).1

theorem infPhaseSerial_getD_frame (it : Nat → Nat → Bool) (inds : List Individual)
    (i : Nat) :
    FrameR (inds.getD i d0) ((infPhaseSerial it inds).getD i d0) :=
  (serialOuter_frame inds it inds.length (List.range inds.length) inds rfl
    (fun i => FrameR_refl _)).2 i

/-! ## Phase and step lemmas -/

theorem movePhase_length (nbh : Nat → List Nat) (mt : Nat → Nat)
    (inds : List Individual) : (movePhase nbh mt inds).length = inds.length := by
  simp [movePhase]

theorem movePhase_getD (nbh : Nat → List Nat) (mt : Nat → Nat)
    (inds : List Individual) (i : Nat) (h : i < inds.length) :
    (movePhase nbh mt inds).getD i d0 =
      (inds.getD i d0).move (nbh (inds.getD i d0).location) (mt i) := by
  have hlen : i < (movePhase nbh mt inds).length := by
    rw [movePhase_length]
    exact h
  rw [List.getD_eq_getElem _ d0 hlen]
  simp [movePhase]

theorem advancePhase_length (th : Nat) (inds : List Individual) :
    (advancePhase th inds).length = inds.length := by
  simp [advancePhase]

theorem advancePhase_getD (th : Nat) (inds : List Individual) (i : Nat)
    (h : i < inds.length) :
    (advancePhase th inds).getD i d0 = (inds.getD i d0).advance_epoch th := by
  have hlen : i < (advancePhase th inds).length := by
    rw [advancePhase_length]
    exact h
  rw [List.getD_eq_getElem _ d0 hlen]
  simp [advancePhase]

theorem stepSerial_fst (nbh : Nat → List Nat) (th : Nat) (mt : Nat → Nat)
    (it : Nat → Nat → Bool) (inds : List Individual) :
    (stepSerial nbh th mt it inds).1 =
      advancePhase th (infPhaseSerial it (movePhase nbh mt inds)) := rfl

theorem stepSerial_snd (nbh : Nat → List Nat) (th : Nat) (mt : Nat → Nat)
    (it : Nat → Nat → Bool) (inds : List Individual) :
    (stepSerial nbh th mt it inds).2 =
      statsSerial (stepSerial nbh th mt it inds).1 := rfl

theorem stepSerial_length (nbh : Nat → List Nat) (th : Nat) (mt : Nat → Nat)
    (it : Nat → Nat → Bool) (inds : List Individual) :
    (stepSerial nbh th mt it inds).1.length = inds.length := by
  rw [stepSerial_fst, advancePhase_length, infPhaseSerial_length, movePhase_length]

theorem stepPar_fst (nbh : Nat → List Nat) (th : Nat) (chunks : List (List Nat))
    (mt : Nat → Nat) (it : Nat → Nat → Bool) (inds : List Individual) :
    (stepPar nbh th chunks mt it inds).1 =
      advancePhase th (infPhasePar it chunks (movePhase nbh mt inds)) := rfl

theorem stepPar_snd (nbh : Nat → List Nat) (th : Nat) (chunks : List (List Nat))
    (mt : Nat → Nat) (it : Nat → Nat → Bool) (inds : List Individual) :
    (stepPar nbh th chunks mt it inds).2 =
      statsPar (stepPar nbh th chunks mt it inds).1 := rfl

theorem stepPar_length (nbh : Nat → List Nat) (th : Nat) (chunks : List (List Nat))
    (mt : Nat → Nat) (it : Nat → Nat → Bool) (inds : List Individual) :
    (stepPar nbh th chunks mt it inds).1.length = inds.length := by
  rw [stepPar_fst, advancePhase_length, infPhasePar_length, movePhase_length]

theorem stepSerial_hit_mono (nbh : Nat → List Nat) (th : Nat) (mt : Nat → Nat)
    (it : Nat → Nat → Bool) (inds : List Individual) (i : Nat)
    (h : (inds.getD i d0).is_hit = true) :
    ((stepSerial nbh th mt it inds).1.getD i d0).is_hit = true := by
  rw [stepSerial_fst]
  by_cases hi : i < inds.length
  · have h1 : ((movePhase nbh mt inds).getD i d0).is_hit = true := by
      rw [movePhase_getD nbh mt inds i hi, move_is_hit]
      exact h
    have h2 : ((infPhaseSerial it (movePhase nbh mt inds)).getD i d0).is_hit = true :=
      FrameR_hit_mono (infPhaseSerial_getD_frame _ _ i) h1
    have hi2 : i < (infPhaseSerial it (movePhase nbh mt inds)).length := by
      rw [infPhaseSerial_length, movePhase_length]
      exact hi
    rw [advancePhase_getD _ _ i hi2, advance_is_hit]
    exact h2
  · rw [getD_eq_d0_of_le inds i (by omega)] at h
    simp [d0, Individual.is_hit] at h

theorem stepPar_hit_mono (nbh : Nat → List Nat) (th : Nat)
    (chunks : List (List Nat)) (mt : Nat → Nat) (it : Nat → Nat → Bool)
    (inds : List Individual) (i : Nat)
    (h : (inds.getD i d0).is_hit = true) :
    ((stepPar nbh th chunks mt it inds).1.getD i d0).is_hit = true := by
  rw [stepPar_fst]
  by_cases hi : i < inds.length
  · have h1 : ((movePhase nbh mt inds).getD i d0).is_hit = true := by
      rw [movePhase_getD nbh mt inds i hi, move_is_hit]
      exact h
    have h2 : ((infPhasePar it chunks (movePhase nbh mt inds)).getD i d0).is_hit = true :=
      FrameR_hit_mono (infPhasePar_getD_frame _ _ _ i) h1
    have hi2 : i < (infPhasePar it chunks (movePhase nbh mt inds)).length := by
      rw [infPhasePar_length, movePhase_length]
      exact hi
    rw [advancePhase_getD _ _ i hi2, advance_is_hit]
    exact h2
  · rw [getD_eq_d0_of_le inds i (by omega)] at h
    simp [d0, Individual.is_hit] at h

theorem stepSerial_inv (nbh : Nat → List Nat) (th : Nat) (mt : Nat → Nat)
    (it : Nat → Nat → Bool) (inds : List Individual) (h : AllInv inds) :
    AllInv (stepSerial nbh th mt it inds).1 := by
  rw [stepSerial_fst]
  apply AllInv_of_getD
  intro i
  by_cases hi2 : i < (infPhaseSerial it (movePhase nbh mt inds)).length
  · rw [advancePhase_getD _ _ i hi2]
    apply Inv_advance
    apply FrameR_inv (infPhaseSerial_getD_frame _ _ i)
    by_cases hi : i < inds.length
    · rw [movePhase_getD nbh mt inds i hi]
      exact Inv_move _ _ _ (AllInv_getD inds h i)
    · rw [getD_eq_d0_of_le _ i (by rw [movePhase_length]; omega)]
      exact Inv_d0
  · rw [getD_eq_d0_of_le _ i (by rw [advancePhase_length]; omega)]
    exact Inv_d0

theorem stepPar_inv (nbh : Nat → List Nat) (th : Nat) (chunks : List (List Nat))
    (mt : Nat → Nat) (it : Nat → Nat → Bool) (inds : List Individual)
    (h : AllInv inds) : AllInv (stepPar nbh th chunks mt it inds).1 := by
  rw [stepPar_fst]
  apply AllInv_of_getD
  intro i
  by_cases hi2 : i < (infPhasePar it chunks (movePhase nbh mt inds)).length
  · rw [advancePhase_getD _ _ i hi2]
    apply Inv_advance
    apply FrameR_inv (infPhasePar_getD_frame _ _ _ i)
    by_cases hi : i < inds.length
    · rw [movePhase_getD nbh mt inds i hi]
      exact Inv_move _ _ _ (AllInv_getD inds h i)
    · rw [getD_eq_d0_of_le _ i (by rw [movePhase_length]; omega)]
      exact Inv_d0
  · rw [getD_eq_d0_of_le _ i (by rw [advancePhase_length]; omega)]
    exact Inv_d0

theorem statsSerial_le (l : List Individual) (h : AllInv l) :
    (statsSerial l).2 ≤ (statsSerial l).1 :=
  List.countP_mono_left (fun x hx hinf => h x hx hinf)

theorem statsPar_le (l : List Individual) : (statsPar l).2 ≤ (statsPar l).1 :=
  List.countP_mono_left (fun x _ hinf => by simp [hinf])

theorem statsPar_hit_eq (l : List Individual) (h : AllInv l) :
    (statsPar l).1 = l.countP (fun ind => ind.is_hit) := by
  apply List.countP_congr
  intro x hx
  cases hinf : x.is_infected with
  | true => simp [hinf, h x hx hinf]
  | false => simp [hinf]

/-! ## Run-level lemmas -/

theorem runSerialFrom_stats_length (nbh : Nat → List Nat) (th : Nat)
    (mt : Nat → Nat → Nat) (it : Nat → Nat → Nat → Bool) :
    ∀ (fuel e : Nat) (inds : List Individual),
      (runSerialFrom nbh th mt it e fuel inds).2.length = fuel := by
  intro fuel
  induction fuel with
  | zero => intro e inds; rfl
  | succ fuel ih =>
    intro e inds
    simp only [runSerialFrom, List.length_cons, ih]

theorem runParFrom_stats_length (nbh : Nat → List Nat) (th : Nat)
    (chunks : List (List Nat)) (mt : Nat → Nat → Nat)
    (it : Nat → Nat → Nat → Bool) :
    ∀ (fuel e : Nat) (inds : List Individual),
      (runParFrom nbh th chunks mt it e fuel inds).2.length = fuel := by
  intro fuel
  induction fuel with
  | zero => intro e inds; rfl
  | succ fuel ih =>
    intro e inds
    simp only [runParFrom, List.length_cons, ih]

theorem runSerialFrom_stats_le (nbh : Nat → List Nat) (th : Nat)
    (mt : Nat → Nat → Nat) (it : Nat → Nat → Nat → Bool) :
    ∀ (fuel e : Nat) (inds : List Individual), AllInv inds →
      ∀ p ∈ (runSerialFrom nbh th mt it e fuel inds).2, p.2 ≤ p.1 := by
  intro fuel
  induction fuel with
  | zero => intro e inds _ p hp; simp [runSerialFrom] at hp
  | succ fuel ih =>
    intro e inds hInv p hp
    simp only [runSerialFrom, List.mem_cons] at hp
    rcases hp with rfl | hp
    · rw [stepSerial_snd]
      exact statsSerial_le _ (stepSerial_inv nbh th (mt e) (it e) inds hInv)
    · exact ih (e + 1) _ (stepSerial_inv nbh th (mt e) (it e) inds hInv) p hp

theorem runParFrom_stats_le (nbh : Nat → List Nat) (th : Nat)
    (chunks : List (List Nat)) (mt : Nat → Nat → Nat)
    (it : Nat → Nat → Nat → Bool) :
    ∀ (fuel e : Nat) (inds : List Individual),
      ∀ p ∈ (runParFrom nbh th chunks mt it e fuel inds).2, p.2 ≤ p.1 := by
  intro fuel
  induction fuel with
  | zero => intro e inds p hp; simp [runParFrom] at hp
  | succ fuel ih =>
    intro e inds p hp
    simp only [runParFrom, List.mem_cons] at hp
    rcases hp with rfl | hp
    · rw [stepPar_snd]
      exact statsPar_le _
    · exact ih (e + 1) _ p hp

theorem runSerialFrom_hit_mono (nbh : Nat → List Nat) (th : Nat)
    (mt : Nat → Nat → Nat) (it : Nat → Nat → Nat → Bool) :
    ∀ (fuel e : Nat) (inds : List Individual) (j : Nat), j + 1 < fuel →
      ((runSerialFrom nbh th mt it e fuel inds).2.getD j (0, 0)).1 ≤
        ((runSerialFrom nbh th mt it e fuel inds).2.getD (j + 1) (0, 0)).1 := by
  intro fuel
  induction fuel with
  | zero => intro e inds j hj; omega
  | succ fuel ih =>
    intro e inds j hj
    cases j with
    | zero =>
      cases fuel with
      | zero => omega
      | succ f =>
        simp only [runSerialFrom, List.getD_cons_zero, List.getD_cons_succ]
        rw [stepSerial_snd, stepSerial_snd]
        apply countP_le_of_pointwise
        · exact (stepSerial_length _ _ _ _ _).symm
        · intro i
          exact stepSerial_hit_mono _ _ _ _ _ i
    | succ j =>
      simp only [runSerialFrom, List.getD_cons_succ]
      exact ih (e + 1) _ j (by omega)

theorem runParFrom_hit_mono (nbh : Nat → List Nat) (th : Nat)
    (chunks : List (List Nat)) (mt : Nat → Nat → Nat)
    (it : Nat → Nat → Nat → Bool) :
    ∀ (fuel e : Nat) (inds : List Individual), AllInv inds → ∀ (j : Nat),
      j + 1 < fuel →
      ((runParFrom nbh th chunks mt it e fuel inds).2.getD j (0, 0)).1 ≤
        ((runParFrom nbh th chunks mt it e fuel inds).2.getD (j + 1) (0, 0)).1 := by
  intro fuel
  induction fuel with
  | zero => intro e inds _ j hj; omega
  | succ fuel ih =>
    intro e inds hInv j hj
    cases j with
    | zero =>
      cases fuel with
      | zero => omega
      | succ f =>
        simp only [runParFrom, List.getD_cons_zero, List.getD_cons_succ]
        rw [stepPar_snd, stepPar_snd]
        have hInv1 : AllInv (stepPar nbh th chunks (mt e) (it e) inds).1 :=
          stepPar_inv _ _ _ _ _ _ hInv
        have hInv2 : AllInv (stepPar nbh th chunks (mt (e + 1)) (it (e + 1))
            (stepPar nbh th chunks (mt e) (it e) inds).1).1 :=
          stepPar_inv _ _ _ _ _ _ hInv1
        rw [statsPar_hit_eq _ hInv1, statsPar_hit_eq _ hInv2]
        apply countP_le_of_pointwise
        · exact (stepPar_length _ _ _ _ _ _).symm
        · intro i
          exact stepPar_hit_mono _ _ _ _ _ _ i
    | succ j =>
      simp only [runParFrom, List.getD_cons_succ]
      exact ih (e + 1) _ (stepPar_inv _ _ _ _ _ _ hInv) j (by omega)

/-! ## The uint8 epoch counter -/

theorem uint8LoopIters_exits (b : Nat) (hb : b ≤ 255) :
    ∀ (fuel e : Nat), e ≤ b → b - e < fuel →
      uint8LoopIters b fuel e = some (b - e) := by
  intro fuel
  induction fuel with
  | zero => intro e h1 h2; omega
  | succ fuel ih =>
    intro e h1 h2
    rw [uint8LoopIters]
    by_cases he : e = b
    · subst he
      rw [if_neg (by rw [Nat.mod_eq_of_lt (by omega)]; omega)]
      simp [Nat.sub_self]
    · rw [if_pos (by rw [Nat.mod_eq_of_lt (by omega)]; omega)]
      rw [ih (e + 1) (by omega) (by omega)]
      have harith : b - (e + 1) + 1 = b - e := by omega
      simp [harith]

theorem epochIterCount_of_le (t : Nat) (h : t ≤ 254) :
    epochIterCount t = some (t + 1) := by
  rw [epochIterCount, Nat.mod_eq_of_lt (by omega)]
  have := uint8LoopIters_exits (t + 1) (by omega) 257 0 (by omega) (by omega)
  simpa using this

theorem simulate_parallel_of_le (nbh : Nat → List Nat) (th : Nat)
    (chunks : List (List Nat)) (mt : Nat → Nat → Nat)
    (it : Nat → Nat → Nat → Bool) (t : Nat) (inds : List Individual)
    (prior : List (Nat × Nat)) (h : t ≤ 254) :
    simulate_parallel nbh th chunks mt it t inds prior =
      some ((runParFrom nbh th chunks mt it 0 (t + 1) inds).1,
        prior ++ (runParFrom nbh th chunks mt it 0 (t + 1) inds).2) := by
  rw [simulate_parallel, epochIterCount_of_le t h]
  rfl

/-! ## Partition independence of the spec engine -/

theorem specStep_chunks_eq (nbh : Nat → List Nat) (th : Nat)
    (chunks : List (List Nat)) (mt : Nat → Nat) (it : Nat → Nat → Bool)
    (inds : List Individual) (h : chunks.flatten.Perm (List.range inds.length)) :
    specStep nbh th chunks mt it inds =
      specStep nbh th [List.range inds.length] mt it inds := by
  have hone : ([List.range inds.length] : List (List Nat)).flatten.Perm
      (List.range inds.length) := by
    simp
  have hmv : specMovePhase nbh mt chunks inds =
      specMovePhase nbh mt [List.range inds.length] inds := by
    simp only [specMovePhase]
    rw [specApplyChunks_eq_map _ _ _ h, specApplyChunks_eq_map _ _ _ hone]
  have hlenM : (specMovePhase nbh mt [List.range inds.length] inds).length =
      inds.length := by
    simp only [specMovePhase]
    exact specApplyChunks_length _ _ _
  have hinf : specInfPhase it chunks
        (specMovePhase nbh mt [List.range inds.length] inds) =
      specInfPhase it [List.range inds.length]
        (specMovePhase nbh mt [List.range inds.length] inds) := by
    simp only [specInfPhase]
    rw [specApplyChunks_eq_map _ _ _ (by rw [hlenM]; exact h),
        specApplyChunks_eq_map _ _ _ (by rw [hlenM]; exact hone)]
  have hlenI : (specInfPhase it [List.range inds.length]
      (specMovePhase nbh mt [List.range inds.length] inds)).length = inds.length := by
    simp only [specInfPhase]
    rw [specApplyChunks_length, hlenM]
  have hadv : specAdvPhase th chunks
        (specInfPhase it [List.range inds.length]
          (specMovePhase nbh mt [List.range inds.length] inds)) =
      specAdvPhase th [List.range inds.length]
        (specInfPhase it [List.range inds.length]
          (specMovePhase nbh mt [List.range inds.length] inds)) := by
    simp only [specAdvPhase]
    rw [specApplyChunks_eq_map _ _ _ (by rw [hlenI]; exact h),
        specApplyChunks_eq_map _ _ _ (by rw [hlenI]; exact hone)]
  have hstats : ∀ (A : List Individual),
      specStats chunks A = specStats [List.range inds.length] A := by
    intro A
    simp only [specStats]
    rw [chunkSum_eq_sum_range _ _ _ h, chunkSum_eq_sum_range _ _ _ hone,
        chunkSum_eq_sum_range _ _ _ h, chunkSum_eq_sum_range _ _ _ hone]
  simp only [specStep]
  rw [hmv, hinf, hadv, hstats]

theorem specStep_length (nbh : Nat → List Nat) (th : Nat)
    (chunks : List (List Nat)) (mt : Nat → Nat) (it : Nat → Nat → Bool)
    (inds : List Individual) :
    (specStep nbh th chunks mt it inds).1.length = inds.length := by
  simp only [specStep, specAdvPhase, specInfPhase, specMovePhase]
  rw [specApplyChunks_length, specApplyChunks_length, specApplyChunks_length]

theorem specRunFrom_chunks_eq (nbh : Nat → List Nat) (th : Nat)
    (chunks : List (List Nat)) (mt : Nat → Nat → Nat)
    (it : Nat → Nat → Nat → Bool) :
    ∀ (fuel e : Nat) (inds : List Individual),
      chunks.flatten.Perm (List.range inds.length) →
      specRunFrom nbh th chunks mt it e fuel inds =
        specRunFrom nbh th [List.range inds.length] mt it e fuel inds := by
  intro fuel
  induction fuel with
  | zero => intro e inds _; rfl
  | succ fuel ih =>
    intro e inds h
    simp only [specRunFrom]
    rw [specStep_chunks_eq nbh th chunks (mt e) (it e) inds h]
    have hlen : (specStep nbh th [List.range inds.length] (mt e) (it e) inds).1.length =
        inds.length := specStep_length _ _ _ _ _ _
    have hih := ih (e + 1)
      (specStep nbh th [List.range inds.length] (mt e) (it e) inds).1
      (by rw [hlen]; exact h)
    rw [hlen] at hih
    rw [hih]

/-! ## The singleton partition computes the snapshot function -/

theorem flatten_map_singleton (l : List Nat) :
    (l.map (fun i => [i])).flatten = l := by
  induction l with
  | nil => rfl
  | cons a l ih => simp [ih]

theorem processChunk_singleton (it : Nat → Nat → Bool) (snap : List Individual)
    (i : Nat) (h : i < snap.length) (acc : List Individual) :
    mergeChunk (processChunk it [i] snap) [i] acc =
      acc.set i (parInfectRead it snap i) := by
  simp only [mergeChunk, List.foldl_cons, List.foldl_nil]
  congr 1
  simp only [processChunk, List.foldl_cons, List.foldl_nil, parInfectRead]
  by_cases hc : (snap.getD i d0).is_infected = true
  · rw [if_pos hc, if_pos hc]
  · rw [if_neg hc, if_neg hc, getD_set, if_pos ⟨rfl, h⟩]

/-- C2 (amended): reads of slots outside the executing worker's chunk observe
the phase-start array, so when every worker owns exactly one individual (the
singleton partition) every infection read observes the phase-start snapshot
and the phase computes a pure per-index function of that snapshot
(`parInfectRead`).  For coarser partitions the counterexample shows the
outcome additionally depends on the worker's own in-phase writes, i.e. on the
partition and on the iteration order inside a chunk. -/
theorem infPhasePar_singletons_snapshot (it : Nat → Nat → Bool)
    (snap : List Individual) :
    infPhasePar it (singletonChunks snap.length) snap =
      (List.range snap.length).map (parInfectRead it snap) := by
  have h1 : infPhasePar it (singletonChunks snap.length) snap =
      specApplyChunks (parInfectRead it snap) (singletonChunks snap.length) snap := by
    simp only [infPhasePar, specApplyChunks]
    apply foldl_congr_mem
    intro ch hch acc
    simp only [singletonChunks, List.mem_map, List.mem_range] at hch
    obtain ⟨i, hi, rfl⟩ := hch
    rw [processChunk_singleton it snap i hi acc]
    simp
  rw [h1]
  apply specApplyChunks_eq_map
  rw [singletonChunks, flatten_map_singleton]

/-! ## Claim theorems -/

/-- C1 (counterexample): with identical configuration and an identical draw
tape, `simulate_serial` and `simulate_parallel` partitioned over 3 workers
(worker count 3 divides the individual count 3 evenly; `staticChunks 3 3` is
the code's static partition) produce different final
`(hitCount, infectedCount)` entries, `(3, 3)` against `(2, 2)`: the serial
engine's live cascade lets the freshly infected individual 1 infect
individual 2 within the same phase, while individual 2's worker in the
partitioned run does not observe individual 1's in-phase infection. -/
theorem serial_parallel_final_stats_differ :
    (simulate_serial exNbh 5 exMt exIt 0 exInds).2 = [(3, 3)] ∧
      (simulate_parallel exNbh 5 (staticChunks 3 3) exMt exIt 0 exInds []).map
        (fun r => r.2) = some [(2, 2)] := by
  decide

/-- C1 (amended): under the snapshot infection-read rule the spec mandates
(the spec engine `specRun`), a single-worker execution (one chunk covering
the whole index range) and an execution partitioned across any family of
chunks covering the index range — in particular the code's static partition
for any worker count dividing the individual count evenly — produce
identical outputs, hence equal final `hitCount` and `infectedCount`. -/
theorem specRun_partition_independent (nbh : Nat → List Nat) (th : Nat)
    (chunks : List (List Nat)) (mt : Nat → Nat → Nat)
    (it : Nat → Nat → Nat → Bool) (t : Nat) (inds : List Individual)
    (h : chunks.flatten.Perm (List.range inds.length)) :
    specRun nbh th chunks mt it t inds =
      specRun nbh th [List.range inds.length] mt it t inds := by
  simp only [specRun]
  exact specRunFrom_chunks_eq nbh th chunks mt it (t + 1) 0 inds h

/-- Witness for C1 (amended): two workers over four individuals. -/
theorem specRun_partition_independent_witness :
    (staticChunks 4 2).flatten.Perm (List.range exInds4.length) ∧
      specRun exNbh 5 (staticChunks 4 2) exMt exIt 1 exInds4 =
        specRun exNbh 5 [List.range exInds4.length] exMt exIt 1 exInds4 :=
  ⟨by decide, specRun_partition_independent exNbh 5 (staticChunks 4 2) exMt exIt 1
    exInds4 (by decide)⟩

/-- C2 (counterexample): the same phase-start array and the same draws give
different newly-infected sets under different partitions of the same index
range: with the single chunk `[0, 1, 2]` the worker's own earlier write
(individual 1 becoming infected) is visible to individual 2's scan and
infects it, with singleton chunks it is not.  Hence the set of individuals
becoming infected is not a function of the phase-start snapshot and the
draws alone. -/
theorem infection_phase_partition_dependent :
    infPhasePar (exIt 0) [[0, 1, 2]] exInds ≠
      infPhasePar (exIt 0) [[0], [1], [2]] exInds := by
  decide

/-- C3: in every run of either engine from a population in which every
infected individual carries the cumulative hit flag (`AllInv`, true of every
seeded initial population), every statistics entry `(hitCount,
infectedCount)` appended to the epoch-statistics sequence satisfies
`infectedCount ≤ hitCount`. -/
theorem epoch_stats_infected_le_hit (nbh : Nat → List Nat) (th : Nat)
    (mt : Nat → Nat → Nat) (it : Nat → Nat → Nat → Bool) (t : Nat)
    (chunks : List (List Nat)) (inds : List Individual) (hInv : AllInv inds) :
    (∀ p ∈ (simulate_serial nbh th mt it t inds).2, p.2 ≤ p.1) ∧
      (∀ st stats,
        simulate_parallel nbh th chunks mt it t inds [] = some (st, stats) →
        ∀ p ∈ stats, p.2 ≤ p.1) := by
  constructor
  · exact runSerialFrom_stats_le nbh th mt it (t + 1) 0 inds hInv
  · intro st stats hsim p hp
    rw [simulate_parallel] at hsim
    cases hiter : epochIterCount t with
    | none =>
      rw [hiter] at hsim
      cases hsim
    | some iters =>
      rw [hiter] at hsim
      simp only [Option.map_some', Option.some.injEq, Prod.mk.injEq] at hsim
      obtain ⟨h1, h2⟩ := hsim
      subst h2
      rw [List.nil_append] at hp
      exact runParFrom_stats_le nbh th chunks mt it iters 0 inds p hp

/-- Witness for C3. -/
theorem epoch_stats_infected_le_hit_witness :
    AllInv exInds ∧
      ∀ p ∈ (simulate_serial exNbh 5 exMt exIt 0 exInds).2, p.2 ≤ p.1 :=
  ⟨by decide, (epoch_stats_infected_le_hit exNbh 5 exMt exIt 0 (staticChunks 3 3)
    exInds (by decide)).1⟩

/-- C4: within a single run of either engine (started from a population
satisfying `AllInv`), the `hitCount` components of consecutive entries of the
epoch-statistics sequence never decrease. -/
theorem epoch_stats_hit_monotone (nbh : Nat → List Nat) (th : Nat)
    (mt : Nat → Nat → Nat) (it : Nat → Nat → Nat → Bool) (t : Nat)
    (chunks : List (List Nat)) (inds : List Individual) (hInv : AllInv inds) :
    (∀ j, j + 1 < (simulate_serial nbh th mt it t inds).2.length →
      ((simulate_serial nbh th mt it t inds).2.getD j (0, 0)).1 ≤
        ((simulate_serial nbh th mt it t inds).2.getD (j + 1) (0, 0)).1) ∧
    (∀ st stats,
      simulate_parallel nbh th chunks mt it t inds [] = some (st, stats) →
      ∀ j, j + 1 < stats.length →
        (stats.getD j (0, 0)).1 ≤ (stats.getD (j + 1) (0, 0)).1) := by
  constructor
  · intro j hj
    simp only [simulate_serial] at hj ⊢
    apply runSerialFrom_hit_mono
    rwa [runSerialFrom_stats_length] at hj
  · intro st stats hsim j hj
    rw [simulate_parallel] at hsim
    cases hiter : epochIterCount t with
    | none =>
      rw [hiter] at hsim
      cases hsim
    | some iters =>
      rw [hiter] at hsim
      simp only [Option.map_some', Option.some.injEq, Prod.mk.injEq] at hsim
      obtain ⟨h1, h2⟩ := hsim
      subst h2
      rw [List.nil_append] at hj ⊢
      apply runParFrom_hit_mono nbh th chunks mt it iters 0 inds hInv
      rwa [runParFrom_stats_length] at hj

/-- Witness for C4. -/
theorem epoch_stats_hit_monotone_witness :
    AllInv exInds ∧
      ((simulate_serial exNbh 5 exMt exIt 1 exInds).2.getD 0 (0, 0)).1 ≤
        ((simulate_serial exNbh 5 exMt exIt 1 exInds).2.getD 1 (0, 0)).1 :=
  ⟨by decide, (epoch_stats_hit_monotone exNbh 5 exMt exIt 1 (staticChunks 3 3)
    exInds (by decide)).1 0 (by decide)⟩

/-- C5 (counterexample): the susceptible individual `exScanCur` at location 0
scans `[0, 1]`; the individual at index 0 is the *first* infected individual
sharing its location but its draw fails (`exScanDraw 0 = false`), so under
the claimed stop-at-first-match rule the scan would end there and the
individual would stay susceptible; the code's scan continues to index 1,
whose draw succeeds, and the individual ends the scan infected. -/
theorem infScan_continues_past_failed_first_match :
    (exScanRead 0).is_infected = true ∧
      (exScanRead 0).location = exScanCur.location ∧
      exScanDraw 0 = false ∧
      infScan exScanRead exScanDraw [0, 1] exScanCur = exScanCur.infect := by
  decide

/-- Witness for C5 (amended). -/
theorem infScan_characterization_witness :
    infScan exScanRead exScanDraw [0, 1] exScanCur = exScanCur.infect :=
  ((infScan_characterization exScanRead exScanDraw [0, 1] exScanCur).2
    (by decide)).mpr ⟨1, by decide, by decide, by decide, by decide⟩

/-- C6 (failing input): at `total_epochs = 255` (the `uint8_t` maximum) the
epoch counter of `simulate_parallel` wraps 255 → 0 while staying below the
integer-promoted bound 256, the loop guard never fails and the loop never
terminates: the embedded engine yields `none` instead of the 256-entry
statistics sequence the claim requires (the counter is periodic modulo 256,
and `uint8LoopIters_never_exits_256` below shows the guard never fails). -/
theorem simulate_parallel_total_epochs_255_diverges :
    simulate_parallel exNbh 5 (staticChunks 3 3) exMt exIt 255 exInds [] = none := by
  decide

/-- The promoted bound 256 is never reached by the wrapped `uint8_t` counter:
with `total_epochs = 255` no amount of fuel makes the loop guard fail. -/
theorem uint8LoopIters_never_exits_256 :
    ∀ (fuel e : Nat), uint8LoopIters 256 fuel e = none := by
  intro fuel
  induction fuel with
  | zero => intro e; rfl
  | succ fuel ih =>
    intro e
    rw [uint8LoopIters, if_pos (Nat.mod_lt _ (by omega)), ih]
    rfl

/-- C7: after the movement phase, every individual's location lies in the
neighborhood (`neighborhood_of`) of its pre-movement location, and that
neighborhood always contains the pre-movement location itself. -/
theorem movePhase_within_neighborhood (g : LocationUndirectedGraph)
    (mt : Nat → Nat) (inds : List Individual) (i : Nat) (h : i < inds.length) :
    ((movePhase (neighborhood_of g) mt inds).getD i d0).location ∈
      neighborhood_of g ((inds.getD i d0).location) ∧
    (inds.getD i d0).location ∈ neighborhood_of g ((inds.getD i d0).location) := by
  constructor
  · rw [movePhase_getD _ _ _ i h]
    have hmem : ∀ (ind : Individual) (c : Nat) (cs : List Nat) (r : Nat),
        (ind.move (c :: cs) r).location ∈ c :: cs := by
      intro ind c cs r
      simp only [Individual.move]
      have hlt : r % (c :: cs).length < (c :: cs).length :=
        Nat.mod_lt _ (by simp)
      rw [List.getD_eq_getElem _ _ hlt]
      exact List.getElem_mem hlt
    simp only [neighborhood_of]
    exact hmem _ _ _ _
  · simp [neighborhood_of]

/-- Witness for C7. -/
theorem movePhase_within_neighborhood_witness :
    ((movePhase (neighborhood_of exGraph) (exMt 0) exInds).getD 0 d0).location ∈
      neighborhood_of exGraph ((exInds.getD 0 d0).location) ∧
    (exInds.getD 0 d0).location ∈
      neighborhood_of exGraph ((exInds.getD 0 d0).location) :=
  movePhase_within_neighborhood exGraph (exMt 0) exInds 0 (by decide)

/-- C8 (failing input evaluation): `reset_input` performs no validation of
the seed count against the population size.  With a population of 1 and a
seed count of 2 the seeding loop dereferences `individuals[1]` past the end
of the vector (undefined behavior, modelled `none`) instead of failing with
`InvalidConfiguration`; with seed count 2 ≤ population 3, construction
succeeds with exactly 2 individuals force-infected. -/
theorem reset_input_unchecked_seed_loop :
    reset_input 1 1 2 (fun _ => 0) = none ∧
      (reset_input 3 1 2 (fun _ => 0)).map
        (fun l => l.countP (fun ind => ind.is_infected)) = some 2 := by
  decide

/-- C9: frame effect of the parallel infection phase — every slot is either
left completely unchanged (location, state, duration and `everHit` all
identical, covering individuals already infected or recovered at phase start
and susceptibles with no successful attempt), or its individual was
susceptible at phase start and the slot now holds the freshly infected
transition of that individual. -/
theorem infPhasePar_frame_effect (it : Nat → Nat → Bool)
    (chunks : List (List Nat)) (snap : List Individual) (i : Nat) :
    (infPhasePar it chunks snap).getD i d0 = snap.getD i d0 ∨
      ((snap.getD i d0).state = InfState.Susceptible ∧
        (infPhasePar it chunks snap).getD i d0 = (snap.getD i d0).infect) :=
  infPhasePar_getD_frame it chunks snap i

/-- C10: whenever the epoch loop terminates (`total_epochs ≤ 254`),
`simulate_parallel` returns the caller's prior statistics vector with exactly
`total_epochs + 1` freshly produced entries appended, and the appended suffix
is independent of the prior contents — repeated calls reusing the vector
accumulate entries. -/
theorem simulate_parallel_appends_stats (nbh : Nat → List Nat) (th : Nat)
    (chunks : List (List Nat)) (mt : Nat → Nat → Nat)
    (it : Nat → Nat → Nat → Bool) (t : Nat) (inds : List Individual)
    (prior : List (Nat × Nat)) (h : t ≤ 254) :
    ∃ st fresh,
      simulate_parallel nbh th chunks mt it t inds prior =
        some (st, prior ++ fresh) ∧
      fresh.length = t + 1 ∧
      simulate_parallel nbh th chunks mt it t inds [] = some (st, fresh) := by
  refine ⟨(runParFrom nbh th chunks mt it 0 (t + 1) inds).1,
    (runParFrom nbh th chunks mt it 0 (t + 1) inds).2, ?_, ?_, ?_⟩
  · exact simulate_parallel_of_le nbh th chunks mt it t inds prior h
  · exact runParFrom_stats_length nbh th chunks mt it (t + 1) 0 inds
  · rw [simulate_parallel_of_le nbh th chunks mt it t inds [] h]
    simp

/-- Witness for C10. -/
theorem simulate_parallel_appends_stats_witness :
    ∃ st fresh,
      simulate_parallel exNbh 5 (staticChunks 3 3) exMt exIt 0 exInds [(9, 9)] =
        some (st, [(9, 9)] ++ fresh) ∧
      fresh.length = 0 + 1 ∧
      simulate_parallel exNbh 5 (staticChunks 3 3) exMt exIt 0 exInds [] =
        some (st, fresh) :=
  simulate_parallel_appends_stats exNbh 5 (staticChunks 3 3) exMt exIt 0 exInds
    [(9, 9)] (by decide)

end IDM
